import Mathlib

/-!
Verification of `nrds_utils/fetch.py` (Ecotrust/nrds_coding_challenge).

The module contains three operations:
  * `naip2016_from_orgeo` — aerial-image fetch with a bounded retry loop;
  * `nlcd_from_mrlc` — land-cover fetch followed by a class-code remap through a
    dense lookup array;
  * `colorize_landcover` — palette-based rendering of a class raster to RGB.

The embedding below translates each of these into pure Lean functions.  Rasters
are lists of lists of `Nat` (numpy `uint8` arrays of class codes).  Operations
that can raise in Python (numpy `IndexError`, dict `KeyError`, transport or
decode exceptions) return `Option`/`Except`, with `none`/`error` standing for a
raised exception.  Network attempts are abstracted as an oracle
`attempt : Nat → Option Raster` giving the decoded raster of the n-th HTTP
request (`none` when the request or `imread` raises).
-/

/-- A decoded single-band raster: a 2D array of unsigned 8-bit class codes. -/
abbrev Raster := List (List Nat)

/-- Option-valued traversal of a list: apply `f` to every element, producing the
list of results, or `none` as soon as some application produces `none`.  Used to
model element-wise numpy operations that can raise. -/
def traverseOpt {α β : Type} (f : α → Option β) : List α → Option (List β)
  | [] => some []
  | a :: as =>
    match f a, traverseOpt f as with
    | some b, some bs => some (b :: bs)
    | _, _ => none

/-- REMAP dict of `nlcd_from_mrlc`, in source order: NLCD source class code to
simplified target class. -/
def REMAP : List (Nat × Nat) :=
  [(1, 1), (2, 1), (3, 5), (4, 5), (5, 5), (6, 5), (7, 4), (8, 4),
   (9, 2), (10, 2), (11, 2), (12, 3), (13, 3), (14, 3), (15, 3), (16, 3),
   (17, 3), (18, 3), (19, 3), (20, 2), (21, 3)]

/-- Largest key of REMAP: `k.max()` in the source (`k = np.array(list(REMAP.keys()))`). -/
def remapKeyMax : Nat := (REMAP.map Prod.fst).foldl max 0

/-- The dense lookup array: `mapping_ar = np.zeros(k.max() + 1)` followed by the
scatter write `mapping_ar[k] = v`. -/
def mapping_ar : List Nat :=
  REMAP.foldl (fun ar kv => ar.set kv.fst kv.snd) (List.replicate (remapKeyMax + 1) 0)

/-- One element of the gather `mapping_ar[img]`: indexing the lookup array at a
source code.  A code of at least `mapping_ar.length` is a numpy `IndexError`,
modelled as `none`. -/
def remapPixel (p : Nat) : Option Nat := mapping_ar.get? p

/-- The remap stage `img = mapping_ar[img]` of `nlcd_from_mrlc`: every pixel is
replaced by its lookup-array entry; if any pixel's code is out of range for the
lookup array the whole gather raises `IndexError` (`none`). -/
def nlcd_remap (img : Raster) : Option Raster :=
  traverseOpt (fun row => traverseOpt remapPixel row) img

/-- `nlcd_from_mrlc` after parameter construction: a single GET plus decode
(the oracle gives the decoded raster of the n-th request, `none` when transport
or decode raises), then the remap stage.  There is no try/except in the source,
so every exception propagates to the caller (`Except.error`); the function can
never return an absent raster.  The second component counts GET attempts made. -/
def nlcd_fetch (attempt : Nat → Option Raster) : Except Unit Raster × Nat :=
  match attempt 0 with
  | none => (Except.error (), 1)
  | some img =>
    match nlcd_remap img with
    | none => (Except.error (), 1)
    | some out => (Except.ok out, 1)

/-- The retry loop of `naip2016_from_orgeo`:
`while retries > 0 and img is None: try ... except: retries -= 1`.
First argument of the recursion is the remaining retry budget, second the number
of attempts already made; the result pairs the final `img` (`none` when the
loop exhausted the budget) with the total number of attempts issued. -/
def naip_loop (attempt : Nat → Option Raster) : Nat → Nat → Option Raster × Nat
  | 0, n => (none, n)
  | r + 1, n =>
    match attempt n with
    | some img => (some img, n + 1)
    | none => naip_loop attempt r (n + 1)

/-- `naip2016_from_orgeo` after parameter construction: run the retry loop with
budget `num_retries` starting at zero attempts.  On exhaustion the source prints
a message and returns `None` (first component `none`) instead of raising. -/
def naip2016_from_orgeo (attempt : Nat → Option Raster) (num_retries : Nat) :
    Option Raster × Nat :=
  naip_loop attempt num_retries 0

/-- C1 (counterexample): the claim says a source code of 22 or more is mapped to
0, but `mapping_ar` has only `k.max() + 1 = 22` entries, so the gather
`mapping_ar[img]` raises `IndexError` on a raster containing 22: the remap
produces no raster at all, not a raster of zeros. -/
theorem remap_out_of_range_cex :
    nlcd_remap [[22]] = none ∧ nlcd_remap [[22]] ≠ some [[0]] := by
  constructor
  · rfl
  · intro h
    exact absurd h (by decide)

/-- The remap table as amended: codes 1-21 go to the §4.2 targets, code 0 goes
to 0 (the untouched zero entry of the lookup array), and any code of 22 or more
raises an `IndexError` (no value) instead of mapping to 0. -/
def remap_target (p : Nat) : Option Nat :=
  if p = 0 then some 0
  else if p ≤ 2 then some 1
  else if p ≤ 6 then some 5
  else if p ≤ 8 then some 4
  else if p ≤ 11 then some 2
  else if p = 20 then some 2
  else if p ≤ 21 then some 3
  else none

/-- Pointwise congruence for `traverseOpt`. -/
theorem traverseOpt_congr {α β : Type} {f g : α → Option β}
    (h : ∀ a, f a = g a) : ∀ l : List α, traverseOpt f l = traverseOpt g l := by
  intro l
  induction l with
  | nil => rfl
  | cons a as ih => simp [traverseOpt, h a, ih]

/-- C1 (amended): the remap stage of `nlcd_from_mrlc` is the pixel-wise
application of the amended table `remap_target`: 1,2 go to 1; 3-6 to 5; 7,8 to
4; 9-11 and 20 to 2; 12-19 and 21 to 3; 0 stays 0; and a code of 22 or more is
an index error rather than 0. -/
theorem remap_table_amended :
    (∀ p : Nat, remapPixel p = remap_target p) ∧
    (∀ img : Raster,
      nlcd_remap img = traverseOpt (fun row => traverseOpt remap_target row) img) := by
  have hpt : ∀ p : Nat, remapPixel p = remap_target p := by
    intro p
    by_cases hp : p < 22
    · interval_cases p <;> rfl
    · have h1 : remapPixel p = none := by
        have hlen : mapping_ar.length = 22 := by rfl
        exact List.get?_eq_none.mpr (by omega)
      have h2 : remap_target p = none := by
        unfold remap_target
        split_ifs <;> first | omega | rfl
      rw [h1, h2]
  refine ⟨hpt, fun img => ?_⟩
  exact traverseOpt_congr (fun row => traverseOpt_congr hpt row) img

/-- When every attempt fails, the retry loop makes one attempt per unit of
budget and ends with no image. -/
theorem naip_loop_all_fail (attempt : Nat → Option Raster)
    (h : ∀ i, attempt i = none) :
    ∀ r n, naip_loop attempt r n = (none, n + r) := by
  intro r
  induction r with
  | zero => intro n; rfl
  | succ r ih =>
    intro n
    have hr : naip_loop attempt (r + 1) n = naip_loop attempt r (n + 1) := by
      simp [naip_loop, h n]
    have hn : n + 1 + r = n + (r + 1) := by omega
    rw [hr, ih (n + 1), hn]

/-- C3: when transport or decode fails on every attempt, `naip2016_from_orgeo`
issues exactly `num_retries` GET attempts (the first attempt included), then
reports failure by returning no raster (`None` in the source, after printing a
message) rather than raising. -/
theorem naip_retry_exhaustion (attempt : Nat → Option Raster) (num_retries : Nat)
    (h : ∀ i, attempt i = none) :
    naip2016_from_orgeo attempt num_retries = (none, num_retries) := by
  unfold naip2016_from_orgeo
  rw [naip_loop_all_fail attempt h num_retries 0, Nat.zero_add]

/-- C3 (witness): with three retries and an always-failing transport, exactly
three attempts are made and no raster is produced. -/
theorem naip_retry_exhaustion_witness :
    naip2016_from_orgeo (fun _ => none) 3 = (none, 3) :=
  naip_retry_exhaustion (fun _ => none) 3 (fun _ => rfl)

/-- C7: when the single GET-plus-decode of `nlcd_from_mrlc` raises, the error
propagates directly to the caller (the source has no try/except): exactly one
attempt is ever made — the second conjunct says no input leads to a retry — and
the result is an error, never a successfully-returned absent raster (the result
type `Except Unit Raster` has no absent-raster value). -/
theorem nlcd_error_propagation (attempt : Nat → Option Raster)
    (h : attempt 0 = none) :
    nlcd_fetch attempt = (Except.error (), 1) ∧
    ∀ a : Nat → Option Raster, (nlcd_fetch a).snd = 1 := by
  constructor
  · simp [nlcd_fetch, h]
  · intro a
    cases h0 : a 0 with
    | none => simp [nlcd_fetch, h0]
    | some img =>
      cases hr : nlcd_remap img with
      | none => simp [nlcd_fetch, h0, hr]
      | some out => simp [nlcd_fetch, h0, hr]

/-- C7 (witness): a failing transport on the land-cover fetch yields a
propagated error after exactly one attempt. -/
theorem nlcd_error_propagation_witness :
    nlcd_fetch (fun _ => none) = (Except.error (), 1) ∧
    ∀ a : Nat → Option Raster, (nlcd_fetch a).snd = 1 :=
  nlcd_error_propagation (fun _ => none) rfl

/-- A query-parameter value: Python str, int or None. -/
inductive ParamValue
  | pstr : String → ParamValue
  | pint : Int → ParamValue
  | pnone : ParamValue
  deriving DecidableEq

/-- One step of `params.update(\x7bkey: value\x7d)`: replace the value in place
when the key is present, append otherwise (Python dicts keep insertion order). -/
def dictUpdate (d : List (String × ParamValue)) (k : String) (v : ParamValue) :
    List (String × ParamValue) :=
  if d.any (fun p => p.fst == k) then
    d.map (fun p => if p.fst == k then (k, v) else p)
  else d ++ [(k, v)]

/-- The kwargs loop `for key, value in kwargs.items(): params.update(...)`. -/
def applyKwargs (params kwargs : List (String × ParamValue)) :
    List (String × ParamValue) :=
  kwargs.foldl (fun d kv => dictUpdate d kv.fst kv.snd) params

/-- Dictionary lookup on the association-list model. -/
def dictLookup (d : List (String × ParamValue)) (k : String) : Option ParamValue :=
  (d.find? (fun p => p.fst == k)).map Prod.snd

/-- The bbox serialization `','.join([str(x) for x in bbox])`. -/
def bboxStr (bbox : List Int) : String :=
  String.intercalate "," (bbox.map toString)

/-- Default parameter dict of `naip2016_from_orgeo`, in source order. -/
def naip_params (bbox : List Int) (width height : Nat) (epsg : Int) :
    List (String × ParamValue) :=
  [("bbox", ParamValue.pstr (bboxStr bbox)),
   ("bboxSR", ParamValue.pint epsg),
   ("size", ParamValue.pstr (toString width ++ "," ++ toString height)),
   ("imageSR", ParamValue.pint epsg),
   ("format", ParamValue.pstr "tiff"),
   ("pixelType", ParamValue.pstr "U8"),
   ("noData", ParamValue.pnone),
   ("noDataInterpretation", ParamValue.pstr "esriNoDataMatchAny"),
   ("interpolation", ParamValue.pstr "+RSP_BilinearInterpolation"),
   ("compression", ParamValue.pnone),
   ("compressionQuality", ParamValue.pnone),
   ("bandIds", ParamValue.pnone),
   ("mosaicRule", ParamValue.pnone),
   ("renderingRule", ParamValue.pnone),
   ("f", ParamValue.pstr "image")]

/-- Default parameter dict of `nlcd_from_mrlc`, in source order. -/
def nlcd_params (bbox : List Int) (width height : Nat) (layer : String)
    (epsg : Int) : List (String × ParamValue) :=
  [("bbox", ParamValue.pstr (bboxStr bbox)),
   ("crs", ParamValue.pstr ("epsg:" ++ toString epsg)),
   ("width", ParamValue.pint (Int.ofNat width)),
   ("height", ParamValue.pint (Int.ofNat height)),
   ("format", ParamValue.pstr "image/geotiff"),
   ("layers", ParamValue.pstr layer)]

/-- Unfolding lemma for `List.find?` at a rejected head. -/
theorem findq_cons_neg {α : Type} (f : α → Bool) (a : α) (l : List α)
    (h : f a = false) : List.find? f (a :: l) = List.find? f l := by
  simp [List.find?, h]

/-- Unfolding lemma for `List.find?` at an accepted head. -/
theorem findq_cons_pos {α : Type} (f : α → Bool) (a : α) (l : List α)
    (h : f a = true) : List.find? f (a :: l) = some a := by
  simp [List.find?, h]

/-- After replacing in place at an existing key, lookup finds the new value. -/
theorem find_map_replace (k : String) (v : ParamValue) :
    ∀ d : List (String × ParamValue), d.any (fun p => p.fst == k) = true →
      (d.map (fun p => if p.fst == k then (k, v) else p)).find?
          (fun p => p.fst == k) = some (k, v) := by
  intro d
  induction d with
  | nil => intro h; simp at h
  | cons p d ih =>
    intro h
    cases hpk : p.fst == k with
    | true =>
      simp only [List.map_cons, if_pos hpk]
      exact findq_cons_pos _ _ _ (by simp)
    | false =>
      rw [List.map_cons, if_neg (show ¬((p.fst == k) = true) by simp [hpk]),
        findq_cons_neg (fun q => q.fst == k) p _ hpk]
      apply ih
      simpa [List.any_cons, hpk] using h

/-- After appending at a fresh key, lookup finds the appended value. -/
theorem find_append_fresh (k : String) (v : ParamValue) :
    ∀ d : List (String × ParamValue), d.any (fun p => p.fst == k) = false →
      (d ++ [(k, v)]).find? (fun p => p.fst == k) = some (k, v) := by
  intro d
  induction d with
  | nil => intro _; exact findq_cons_pos _ _ _ (by simp)
  | cons p d ih =>
    intro h
    simp only [List.any_cons, Bool.or_eq_false_iff] at h
    rw [List.cons_append, findq_cons_neg (fun q => q.fst == k) p _ h.1]
    exact ih h.2

/-- Core of the parameter-override behavior: a `dict.update` at key `k` makes a
later lookup of `k` return the updated value, whether or not `k` was present. -/
theorem dictLookup_dictUpdate (d : List (String × ParamValue)) (k : String)
    (v : ParamValue) : dictLookup (dictUpdate d k v) k = some v := by
  unfold dictUpdate dictLookup
  rcases Bool.eq_false_or_eq_true (d.any (fun p => p.fst == k)) with hany | hany
  · rw [if_pos hany, find_map_replace k v d hany]
    rfl
  · rw [if_neg (show ¬((d.any (fun p => p.fst == k)) = true) by simp [hany]),
      find_append_fresh k v d hany]
    rfl

/-- C5: for either fetcher, passing an extra keyword parameter whose key
collides with one of that fetcher's default parameters makes the final request
dictionary carry the caller's value at that key, not the default — last writer
wins.  Each conjunct assumes only a collision with its own fetcher's defaults,
so any default key of `naip2016_from_orgeo` and any default key of
`nlcd_from_mrlc` is covered. -/
theorem kwargs_override_claim (bbox : List Int) (w h : Nat) (epsg : Int)
    (layer : String) (k : String) (v : ParamValue) :
    (k ∈ (naip_params bbox w h epsg).map Prod.fst →
      dictLookup (applyKwargs (naip_params bbox w h epsg) [(k, v)]) k = some v) ∧
    (k ∈ (nlcd_params bbox w h layer epsg).map Prod.fst →
      dictLookup (applyKwargs (nlcd_params bbox w h layer epsg) [(k, v)]) k
        = some v) := by
  constructor <;> exact fun _ => dictLookup_dictUpdate _ k v

/-- C5 (witness): overriding the aerial fetcher's own `pixelType` default and
the land-cover fetcher's own `crs` default. -/
theorem kwargs_override_claim_witness :
    dictLookup
        (applyKwargs (naip_params [0, 0, 1, 1] 2 2 5070)
          [("pixelType", ParamValue.pstr "U16")]) "pixelType"
      = some (ParamValue.pstr "U16") ∧
    dictLookup
        (applyKwargs (nlcd_params [0, 0, 1, 1] 2 2 "NLCD_2016_Land_Cover_L48" 5070)
          [("crs", ParamValue.pstr "epsg:4326")]) "crs"
      = some (ParamValue.pstr "epsg:4326") :=
  ⟨(kwargs_override_claim [0, 0, 1, 1] 2 2 5070 "NLCD_2016_Land_Cover_L48"
      "pixelType" (ParamValue.pstr "U16")).1 (by decide),
   (kwargs_override_claim [0, 0, 1, 1] 2 2 5070 "NLCD_2016_Land_Cover_L48"
      "crs" (ParamValue.pstr "epsg:4326")).2 (by decide)⟩

/-- COLOR_MAP of `colorize_landcover`.  Every float component in the source is
an exact multiple of 1/8 (1.0, 0.5, 0.375, 0.0), so a color is stored as the
triple of numerators in eighths: 1.0 is 8, 0.5 is 4, 0.375 is 3, 0.0 is 0.  A
value absent from the dict is a Python `KeyError` (`none`). -/
def COLOR_MAP (v : Nat) : Option (Nat × Nat × Nat) :=
  if v = 0 then some (8, 8, 8)
  else if v = 1 then some (0, 0, 8)
  else if v = 2 then some (0, 4, 0)
  else if v = 3 then some (4, 8, 4)
  else if v = 4 then some (4, 3, 3)
  else if v = 5 then some (0, 0, 0)
  else if v = 255 then some (8, 0, 0)
  else none

/-- The scaling step `(cover_colors * 255).astype(np.uint8)` on one component:
multiply by 255 and truncate toward zero.  On an exact component n/8 in [0, 1]
this is floor(255 * n / 8), i.e. truncating Nat division (the source's float
arithmetic is exact here: n/8 and 255 * n/8 are dyadic rationals). -/
def toU8 (n : Nat) : Nat := 255 * n / 8

/-- Scale a palette color (in eighths) to an 8-bit RGB triple. -/
def scaleColor (c : Nat × Nat × Nat) : Nat × Nat × Nat :=
  (toU8 c.fst, toU8 c.snd.fst, toU8 c.snd.snd)

/-- Insertion into a sorted list, for the model of `np.unique`. -/
def insertSorted (a : Nat) : List Nat → List Nat
  | [] => [a]
  | b :: bs => if a ≤ b then a :: b :: bs else b :: insertSorted a bs

/-- Sort a list of naturals ascending. -/
def sortNat (l : List Nat) : List Nat := l.foldr insertSorted []

/-- `np.unique(img)`: the sorted distinct values occurring in the raster. -/
def npUnique (img : Raster) : List Nat := sortNat img.flatten.dedup

/-- The masked write `cover_colors[mask] = COLOR_MAP[cov]` with
`mask = img == cov`: every position whose raster value equals `cov` receives
the color `c`; all other positions keep their previous color.  Colors are in
eighths (see `COLOR_MAP`). -/
def writeMask (img : Raster) (cover : List (List (Nat × Nat × Nat))) (cov : Nat)
    (c : Nat × Nat × Nat) : List (List (Nat × Nat × Nat)) :=
  List.zipWith
    (fun irow crow => List.zipWith (fun p cc => if p = cov then c else cc) irow crow)
    img cover

/-- The loop `for cov in np.unique(img): ... cover_colors[mask] = COLOR_MAP[cov]`
of `colorize_landcover`: one masked write per distinct value, with a `KeyError`
(`none`) as soon as a value is missing from the palette. -/
def colorFold (img : Raster) :
    List Nat → List (List (Nat × Nat × Nat)) → Option (List (List (Nat × Nat × Nat)))
  | [], cover => some cover
  | cov :: rest, cover =>
    match COLOR_MAP cov with
    | some c => colorFold img rest (writeMask img cover cov c)
    | none => none

/-- Number of columns of the raster, `img.shape[1]` (numpy arrays are
rectangular, so this is the length of the first row). -/
def imgW (img : Raster) : Nat := (img.head?.getD []).length

/-- The allocation `cover_colors = np.zeros((img.shape[0], img.shape[1], 3))`:
an all-zero color plane of the input's height and width. -/
def zerosCover (img : Raster) : List (List (Nat × Nat × Nat)) :=
  List.replicate img.length (List.replicate (imgW img) (0, 0, 0))

/-- `colorize_landcover`: run the distinct-value loop on the zero color plane,
then scale every color to 8-bit with `(cover_colors * 255).astype(np.uint8)`.
A `KeyError` in the loop propagates (`none`). -/
def colorize_landcover (img : Raster) : Option (List (List (Nat × Nat × Nat))) :=
  match colorFold img (npUnique img) (zerosCover img) with
  | some cover => some (cover.map (fun row => row.map scaleColor))
  | none => none

/-- Pixel access `img[i][j]` on a 2D raster. -/
def pix (img : Raster) (i j : Nat) : Option Nat :=
  (img.get? i).bind (fun row => row.get? j)

/-- Pixel access on a color plane (colors in eighths or 8-bit triples). -/
def pixC (out : List (List (Nat × Nat × Nat))) (i j : Nat) :
    Option (Nat × Nat × Nat) :=
  (out.get? i).bind (fun row => row.get? j)

/-- Rectangularity of a raster: every row has the width of the first row.  A
numpy 2D array always satisfies this. -/
abbrev Rect (img : Raster) : Prop := ∀ row ∈ img, row.length = imgW img

/-- Element lookup in a `List.replicate`. -/
theorem getq_replicate {α : Type} (a : α) (n i : Nat) :
    (List.replicate n a).get? i = if i < n then some a else none := by
  induction n generalizing i with
  | zero => simp
  | succ n ih =>
    cases i with
    | zero => simp [List.replicate]
    | succ i =>
      rw [List.replicate, List.get?, ih i]
      by_cases h : i < n
      · rw [if_pos h, if_pos (by omega)]
      · rw [if_neg h, if_neg (by omega)]

/-- Membership through `insertSorted`. -/
theorem mem_insertSorted (a b : Nat) :
    ∀ l : List Nat, (b ∈ insertSorted a l ↔ b = a ∨ b ∈ l) := by
  intro l
  induction l with
  | nil => simp [insertSorted]
  | cons c cs ih =>
    by_cases h : a ≤ c
    · simp [insertSorted, if_pos h]
    · simp only [insertSorted, if_neg h, List.mem_cons, ih]
      tauto

/-- Membership through `sortNat`. -/
theorem mem_sortNat (b : Nat) : ∀ l : List Nat, (b ∈ sortNat l ↔ b ∈ l) := by
  intro l
  induction l with
  | nil => simp [sortNat]
  | cons a l ih =>
    show b ∈ insertSorted a (sortNat l) ↔ _
    rw [mem_insertSorted, ih]
    simp

/-- Membership in `np.unique(img)` is membership among the raster's values. -/
theorem mem_npUnique (img : Raster) (v : Nat) :
    v ∈ npUnique img ↔ v ∈ img.flatten := by
  rw [npUnique, mem_sortNat, List.mem_dedup]

/-- A pixel's value occurs among the raster's values. -/
theorem pix_mem_flatten (img : Raster) (i j p : Nat) (h : pix img i j = some p) :
    p ∈ img.flatten := by
  unfold pix at h
  cases hrow : img.get? i with
  | none => rw [hrow] at h; exact absurd h (by simp)
  | some row =>
    rw [hrow] at h
    exact List.mem_flatten.mpr ⟨row, List.get?_mem hrow, List.get?_mem h⟩

/-- Element lookup through `List.zipWith`. -/
theorem getq_zipWith {α β γ : Type} (f : α → β → γ) (l1 : List α) (l2 : List β)
    (n : Nat) (a : α) (b : β) (h1 : l1.get? n = some a) (h2 : l2.get? n = some b) :
    (List.zipWith f l1 l2).get? n = some (f a b) := by
  induction l1 generalizing l2 n with
  | nil => exact absurd h1 (by simp)
  | cons x l ih =>
    cases l2 with
    | nil => exact absurd h2 (by simp)
    | cons y l2 =>
      cases n with
      | zero =>
        simp only [List.get?] at h1 h2
        cases h1; cases h2; rfl
      | succ n =>
        simp only [List.get?] at h1 h2 ⊢
        exact ih l2 n h1 h2

/-- Pointwise description of the masked write: the pixel at (i, j) becomes `c`
exactly when the raster holds `cov` there, and is untouched otherwise. -/
theorem pixC_writeMask (img : Raster) (cover : List (List (Nat × Nat × Nat)))
    (cov : Nat) (c : Nat × Nat × Nat) (i j p : Nat) (c0 : Nat × Nat × Nat)
    (hp : pix img i j = some p) (hc : pixC cover i j = some c0) :
    pixC (writeMask img cover cov c) i j = some (if p = cov then c else c0) := by
  unfold pix at hp
  unfold pixC at hc ⊢
  cases hrow : img.get? i with
  | none => rw [hrow] at hp; exact absurd hp (by simp)
  | some irow =>
    cases hcrow : cover.get? i with
    | none => rw [hcrow] at hc; exact absurd hc (by simp)
    | some crow =>
      rw [hrow] at hp
      rw [hcrow] at hc
      simp only [Option.bind] at hp hc
      rw [writeMask, getq_zipWith _ img cover i irow crow hrow hcrow]
      simp only [Option.some_bind]
      exact getq_zipWith _ irow crow j p c0 hp hc

/-- Shape of a color plane: height `H` and every row of width `W`. -/
def HasShape (H W : Nat) (cover : List (List (Nat × Nat × Nat))) : Prop :=
  cover.length = H ∧ ∀ r ∈ cover, r.length = W

/-- The zero allocation has the raster's height and width. -/
theorem zerosCover_shape (img : Raster) :
    HasShape img.length (imgW img) (zerosCover img) := by
  constructor
  · simp [zerosCover]
  · intro r hr
    have := List.eq_of_mem_replicate hr
    simp [this]

/-- Index below the length yields an element. -/
theorem getq_lt {α : Type} (l : List α) (n : Nat) (h : n < l.length) :
    ∃ a, l.get? n = some a := by
  cases hg : l.get? n with
  | none =>
    have := List.get?_eq_none.mp hg
    omega
  | some a => exact ⟨a, rfl⟩

/-- The masked write preserves the shape of the color plane. -/
theorem writeMask_shape (img : Raster) (cover : List (List (Nat × Nat × Nat)))
    (cov : Nat) (c : Nat × Nat × Nat) (hrect : Rect img)
    (hc : HasShape img.length (imgW img) cover) :
    HasShape img.length (imgW img) (writeMask img cover cov c) := by
  have hlen : (writeMask img cover cov c).length = img.length := by
    rw [writeMask, List.length_zipWith, hc.1]
    simp
  refine ⟨hlen, ?_⟩
  intro r hr
  rcases List.mem_iff_get?.mp hr with ⟨n, hn⟩
  have hlt : n < img.length := by
    by_contra hge
    rw [List.get?_eq_none.mpr (by omega)] at hn
    exact absurd hn (by simp)
  obtain ⟨irow, hni⟩ := getq_lt img n hlt
  obtain ⟨crow, hnc⟩ := getq_lt cover n (by rw [hc.1]; omega)
  rw [writeMask, getq_zipWith _ img cover n irow crow hni hnc] at hn
  cases hn
  rw [List.length_zipWith, hrect irow (List.get?_mem hni),
    hc.2 crow (List.get?_mem hnc)]
  simp

/-- Invariant of the distinct-value loop: a pixel whose value is among the
processed values ends up with its palette color; a pixel whose value is not
processed keeps its previous color. -/
theorem colorFold_pix (img : Raster) :
    ∀ (U : List Nat) (cover cover2 : List (List (Nat × Nat × Nat))),
      colorFold img U cover = some cover2 →
      ∀ i j p c0, pix img i j = some p → pixC cover i j = some c0 →
        (p ∈ U → ∃ c, COLOR_MAP p = some c ∧ pixC cover2 i j = some c) ∧
        (p ∉ U → pixC cover2 i j = some c0) := by
  intro U
  induction U with
  | nil =>
    intro cover cover2 hfold i j p c0 hp hc
    cases hfold
    exact ⟨fun hmem => absurd hmem (by simp), fun _ => hc⟩
  | cons cov rest ih =>
    intro cover cover2 hfold i j p c0 hp hc
    rcases hcm : COLOR_MAP cov with _ | c
    · rw [colorFold, hcm] at hfold
      exact absurd hfold (by simp)
    · rw [colorFold, hcm] at hfold
      have hc1 : pixC (writeMask img cover cov c) i j
          = some (if p = cov then c else c0) :=
        pixC_writeMask img cover cov c i j p c0 hp hc
      have hrec := ih (writeMask img cover cov c) cover2 hfold i j p
        (if p = cov then c else c0) hp hc1
      constructor
      · intro hmem
        by_cases hrest : p ∈ rest
        · exact hrec.1 hrest
        · have hpc : p = cov := by
            rcases List.mem_cons.mp hmem with h | h
            · exact h
            · exact absurd h hrest
          refine ⟨c, ?_, ?_⟩
          · rw [hpc, hcm]
          · have := hrec.2 hrest
            rw [if_pos hpc] at this
            exact this
      · intro hmem
        have hrest : p ∉ rest := fun h => hmem (List.mem_cons_of_mem cov h)
        have hpc : ¬p = cov := fun h => hmem (by rw [h]; exact List.mem_cons_self cov rest)
        have := hrec.2 hrest
        rw [if_neg hpc] at this
        exact this

/-- The distinct-value loop succeeds exactly when every processed value has a
palette entry. -/
theorem colorFold_isSome (img : Raster) :
    ∀ (U : List Nat) (cover : List (List (Nat × Nat × Nat))),
      (∀ u ∈ U, (COLOR_MAP u).isSome) →
      ∃ cover2, colorFold img U cover = some cover2 := by
  intro U
  induction U with
  | nil => intro cover _; exact ⟨cover, rfl⟩
  | cons cov rest ih =>
    intro cover hU
    rcases hcm : COLOR_MAP cov with _ | c
    · have := hU cov (List.mem_cons_self cov rest)
      rw [hcm] at this
      exact absurd this (by simp)
    · obtain ⟨cover2, h2⟩ := ih (writeMask img cover cov c)
        (fun u hu => hU u (List.mem_cons_of_mem cov hu))
      exact ⟨cover2, by rw [colorFold, hcm]; exact h2⟩

/-- The distinct-value loop fails as soon as a processed value has no palette
entry. -/
theorem colorFold_none (img : Raster) :
    ∀ (U : List Nat) (cover : List (List (Nat × Nat × Nat))) (v : Nat),
      v ∈ U → COLOR_MAP v = none → colorFold img U cover = none := by
  intro U
  induction U with
  | nil => intro cover v hv _; exact absurd hv (by simp)
  | cons cov rest ih =>
    intro cover v hv hnone
    rcases hcm : COLOR_MAP cov with _ | c
    · rw [colorFold, hcm]
    · rcases List.mem_cons.mp hv with h | h
      · rw [h] at hnone
        rw [hnone] at hcm
        exact absurd hcm (by simp)
      · rw [colorFold, hcm]
        exact ih (writeMask img cover cov c) v h hnone

/-- The distinct-value loop preserves the shape of the color plane. -/
theorem colorFold_shape (img : Raster) (hrect : Rect img) :
    ∀ (U : List Nat) (cover cover2 : List (List (Nat × Nat × Nat))),
      colorFold img U cover = some cover2 →
      HasShape img.length (imgW img) cover →
      HasShape img.length (imgW img) cover2 := by
  intro U
  induction U with
  | nil =>
    intro cover cover2 hfold hshape
    cases hfold
    exact hshape
  | cons cov rest ih =>
    intro cover cover2 hfold hshape
    rcases hcm : COLOR_MAP cov with _ | c
    · rw [colorFold, hcm] at hfold
      exact absurd hfold (by simp)
    · rw [colorFold, hcm] at hfold
      exact ih (writeMask img cover cov c) cover2 hfold
        (writeMask_shape img cover cov c hrect hshape)

/-- An element below the length bound. -/
theorem getq_some_lt {α : Type} (l : List α) (n : Nat) (a : α)
    (h : l.get? n = some a) : n < l.length := by
  by_contra hge
  rw [List.get?_eq_none.mpr (by omega)] at h
  exact absurd h (by simp)

/-- Decomposition of a defined pixel access. -/
theorem pix_inv (img : Raster) (i j v : Nat) (h : pix img i j = some v) :
    ∃ row, img.get? i = some row ∧ row.get? j = some v := by
  unfold pix at h
  cases hr : img.get? i with
  | none => rw [hr] at h; exact absurd h (by simp)
  | some row => rw [hr] at h; exact ⟨row, rfl, h⟩

/-- The zero color plane holds (0, 0, 0) at every in-bounds position. -/
theorem zerosCover_pix (img : Raster) (i j : Nat) (hi : i < img.length)
    (hj : j < imgW img) : pixC (zerosCover img) i j = some (0, 0, 0) := by
  unfold pixC zerosCover
  rw [getq_replicate, if_pos hi]
  simp only [Option.some_bind]
  rw [getq_replicate, if_pos hj]

/-- Core pixel-level description of `colorize_landcover`: whenever the colorizer
returns, each output pixel is the input pixel's palette color scaled to 8 bit. -/
theorem colorize_pix_core (img : Raster) (out : List (List (Nat × Nat × Nat)))
    (i j v : Nat) (hrect : Rect img) (h : colorize_landcover img = some out)
    (hv : pix img i j = some v) :
    ∃ c, COLOR_MAP v = some c ∧ pixC out i j = some (scaleColor c) := by
  rcases hfold : colorFold img (npUnique img) (zerosCover img) with _ | cover
  · rw [colorize_landcover, hfold] at h
    exact absurd h (by simp)
  · rw [colorize_landcover, hfold] at h
    have hout : out = cover.map (fun row => row.map scaleColor) := by
      cases h; rfl
    obtain ⟨row, hrow, hpv⟩ := pix_inv img i j v hv
    have hi : i < img.length := getq_some_lt img i row hrow
    have hj : j < imgW img := by
      rw [← hrect row (List.get?_mem hrow)]
      exact getq_some_lt row j v hpv
    have hc0 : pixC (zerosCover img) i j = some (0, 0, 0) := zerosCover_pix img i j hi hj
    have hmem : v ∈ npUnique img :=
      (mem_npUnique img v).mpr (pix_mem_flatten img i j v hv)
    obtain ⟨c, hcm, hpx⟩ :=
      (colorFold_pix img (npUnique img) (zerosCover img) cover hfold i j v (0, 0, 0)
        hv hc0).1 hmem
    refine ⟨c, hcm, ?_⟩
    rw [hout]
    unfold pixC at hpx ⊢
    cases hcr : cover.get? i with
    | none => rw [hcr] at hpx; exact absurd hpx (by simp)
    | some crow =>
      rw [hcr] at hpx
      simp only [Option.some_bind] at hpx
      simp only [List.get?_eq_getElem?] at hcr hpx
      simp [List.getElem?_map, hcr, hpx]

/-- C2: whenever `colorize_landcover` accepts a raster, every pixel holding a
palette value receives exactly that palette color with each component scaled by
255 and truncated to an integer.  In particular a pixel of value 1 becomes
(0, 0, 255) and a pixel of value 255 becomes (255, 0, 0). -/
theorem colorize_palette_exact (img : Raster) (out : List (List (Nat × Nat × Nat)))
    (i j v : Nat) (hrect : Rect img) (h : colorize_landcover img = some out)
    (hv : pix img i j = some v) :
    ∃ c, COLOR_MAP v = some c ∧ pixC out i j = some (scaleColor c) :=
  colorize_pix_core img out i j v hrect h hv

/-- C2 (witness): a one-pixel raster of value 1 colorizes to (0, 0, 255). -/
theorem colorize_palette_exact_witness :
    ∃ c, COLOR_MAP 1 = some c ∧ pixC [[(0, 0, 255)]] 0 0 = some (scaleColor c) :=
  colorize_palette_exact [[1]] [[(0, 0, 255)]] 0 0 1 (by decide) (by decide) (by decide)

/-- C8: a raster containing any value outside the palette keys 0-5 and 255
makes `colorize_landcover` raise a `KeyError` (hard failure, no output raster),
rather than skipping or defaulting the offending pixel. -/
theorem colorize_unknown_value_fails (img : Raster)
    (h : ∃ row ∈ img, ∃ v ∈ row, v ∉ ([0, 1, 2, 3, 4, 5, 255] : List Nat)) :
    colorize_landcover img = none := by
  obtain ⟨row, hrow, v, hv, hout⟩ := h
  have hnone : COLOR_MAP v = none := by
    unfold COLOR_MAP
    split_ifs with h0 h1 h2 h3 h4 h5 h255
    · exact absurd (show v ∈ ([0, 1, 2, 3, 4, 5, 255] : List Nat) by
        rw [h0]; decide) hout
    · exact absurd (show v ∈ ([0, 1, 2, 3, 4, 5, 255] : List Nat) by
        rw [h1]; decide) hout
    · exact absurd (show v ∈ ([0, 1, 2, 3, 4, 5, 255] : List Nat) by
        rw [h2]; decide) hout
    · exact absurd (show v ∈ ([0, 1, 2, 3, 4, 5, 255] : List Nat) by
        rw [h3]; decide) hout
    · exact absurd (show v ∈ ([0, 1, 2, 3, 4, 5, 255] : List Nat) by
        rw [h4]; decide) hout
    · exact absurd (show v ∈ ([0, 1, 2, 3, 4, 5, 255] : List Nat) by
        rw [h5]; decide) hout
    · exact absurd (show v ∈ ([0, 1, 2, 3, 4, 5, 255] : List Nat) by
        rw [h255]; decide) hout
    · rfl
  have hmem : v ∈ npUnique img :=
    (mem_npUnique img v).mpr (List.mem_flatten.mpr ⟨row, hrow, hv⟩)
  rw [colorize_landcover, colorFold_none img (npUnique img) (zerosCover img) v hmem hnone]

/-- C8 (witness): value 7 is outside the palette, so colorizing fails. -/
theorem colorize_unknown_value_fails_witness : colorize_landcover [[7]] = none :=
  colorize_unknown_value_fails [[7]] (by decide)

/-- Every element produced by a successful `traverseOpt` comes from applying `f`
to some element of the input. -/
theorem traverseOpt_mem {α β : Type} (f : α → Option β) :
    ∀ (l : List α) (l2 : List β), traverseOpt f l = some l2 →
      ∀ b ∈ l2, ∃ a ∈ l, f a = some b := by
  intro l
  induction l with
  | nil =>
    intro l2 h b hb
    cases h
    exact absurd hb (by simp)
  | cons a as ih =>
    intro l2 h b hb
    rcases hfa : f a with _ | b0
    · simp only [traverseOpt, hfa] at h
      exact absurd h (by simp)
    · rcases hrest : traverseOpt f as with _ | bs
      · simp only [traverseOpt, hfa, hrest] at h
        exact absurd h (by simp)
      · simp only [traverseOpt, hfa, hrest] at h
        cases h
        rcases List.mem_cons.mp hb with hb | hb
        · exact ⟨a, List.mem_cons_self a as, by rw [hfa, hb]⟩
        · obtain ⟨a2, ha2, hfa2⟩ := ih bs hrest b hb
          exact ⟨a2, List.mem_cons_of_mem a ha2, hfa2⟩

/-- Every entry of the remap lookup array is one of the simplified classes. -/
theorem mapping_ar_range : ∀ x ∈ mapping_ar, x ∈ ([0, 1, 2, 3, 4, 5] : List Nat) := by
  decide

/-- C9: whenever the remap stage of `nlcd_from_mrlc` succeeds, every output
pixel is one of the simplified classes 0-5, and the result therefore satisfies
the colorizer's palette-safety precondition (`colorize_landcover` accepts it). -/
theorem remap_palette_safety (img out : Raster) (h : nlcd_remap img = some out) :
    (∀ row ∈ out, ∀ p ∈ row, p ∈ ([0, 1, 2, 3, 4, 5] : List Nat)) ∧
    (colorize_landcover out).isSome := by
  have hval : ∀ row ∈ out, ∀ p ∈ row, p ∈ ([0, 1, 2, 3, 4, 5] : List Nat) := by
    intro row hrow p hp
    obtain ⟨srow, _, hsrow⟩ :=
      traverseOpt_mem (fun row => traverseOpt remapPixel row) img out h row hrow
    obtain ⟨q, _, hq⟩ := traverseOpt_mem remapPixel srow row hsrow p hp
    exact mapping_ar_range p (List.get?_mem hq)
  refine ⟨hval, ?_⟩
  have hU : ∀ u ∈ npUnique out, (COLOR_MAP u).isSome := by
    intro u hu
    obtain ⟨row, hrow, hur⟩ := List.mem_flatten.mp ((mem_npUnique out u).mp hu)
    have := hval row hrow u hur
    simp only [List.mem_cons] at this
    rcases this with rfl | rfl | rfl | rfl | rfl | rfl | hfalse
    · decide
    · decide
    · decide
    · decide
    · decide
    · decide
    · exact absurd hfalse (by simp)
  obtain ⟨cover2, hc⟩ := colorFold_isSome out (npUnique out) (zerosCover out) hU
  rw [colorize_landcover, hc]
  rfl

/-- C9 (witness): remapping a one-pixel raster of deciduous forest (9). -/
theorem remap_palette_safety_witness :
    (∀ row ∈ ([[2]] : Raster), ∀ p ∈ row, p ∈ ([0, 1, 2, 3, 4, 5] : List Nat)) ∧
    (colorize_landcover [[2]]).isSome :=
  remap_palette_safety [[9]] [[2]] (by decide)

/-- Core 2D shape lemma: whenever `colorize_landcover` accepts a rectangular
raster, the output has the input's height and width. -/
theorem colorize_shape_core (img : Raster) (out : List (List (Nat × Nat × Nat)))
    (hrect : Rect img) (h : colorize_landcover img = some out) :
    out.length = img.length ∧ ∀ r ∈ out, r.length = imgW img := by
  rcases hfold : colorFold img (npUnique img) (zerosCover img) with _ | cover
  · rw [colorize_landcover, hfold] at h
    exact absurd h (by simp)
  · rw [colorize_landcover, hfold] at h
    have hout : out = cover.map (fun row => row.map scaleColor) := by
      cases h; rfl
    have hshape : HasShape img.length (imgW img) cover :=
      colorFold_shape img hrect (npUnique img) (zerosCover img) cover hfold
        (zerosCover_shape img)
    constructor
    · rw [hout, List.length_map, hshape.1]
    · intro r hr
      rw [hout] at hr
      obtain ⟨r0, hr0, hmap⟩ := List.mem_map.mp hr
      rw [← hmap, List.length_map]
      exact hshape.2 r0 hr0

/-- A 3D raster: numpy array of shape (H, W, C), e.g. the docstring's
(H, W, num_classes) input to `colorize_landcover`. -/
abbrev Raster3 := List (List (List Nat))

/-- Row-major flattening of a 3D raster (numpy C order). -/
def flat3 (img : Raster3) : List Nat := img.flatten.flatten

/-- `img.shape[2]` of a 3D raster. -/
def chan3 (img : Raster3) : Nat := ((img.head?.getD []).head?.getD []).length

/-- `np.unique` of a 3D raster: sorted distinct values. -/
def npUnique3 (img : Raster3) : List Nat := sortNat (flat3 img).dedup

/-- Row-major positions where the boolean mask `img == cov` is True. -/
def maskIdxs (img : Raster3) (cov : Nat) : List Nat :=
  (List.range (flat3 img).length).filter (fun p => (flat3 img).get? p == some cov)

/-- The loop of `colorize_landcover` on a 3D input, with `cover_colors` of shape
(H, W, 3) kept as a flat row-major list.  numpy semantics of
`cover_colors[mask] = COLOR_MAP[cov]` with a mask of the same rank as the
target: the boolean mask's shape must equal the target's shape, so the trailing
dimension of the input must be 3 (`IndexError` otherwise); the assignment then
broadcasts the 3-element color over the selected scalar positions, which
requires exactly 3 selected positions (`ValueError` otherwise), written in
row-major order.  With the trailing dimension equal to 3, a flat mask position
is also a flat position of `cover_colors`. -/
def colorFold3 (img : Raster3) : List Nat → List Nat → Option (List Nat)
  | [], cover => some cover
  | cov :: rest, cover =>
    match COLOR_MAP cov with
    | some c =>
      if chan3 img = 3 then
        match maskIdxs img cov with
        | [p1, p2, p3] =>
          colorFold3 img rest (((cover.set p1 c.fst).set p2 c.snd.fst).set p3 c.snd.snd)
        | _ => none
      else none
    | none => none

/-- `colorize_landcover` on a 3D input: `cover_colors` is allocated as
`np.zeros((img.shape[0], img.shape[1], 3))`, the distinct-value loop runs with
the rank-3 mask semantics of `colorFold3`, and the scaled result is reshaped to
height `img.shape[0]` and width `img.shape[1]` with 3 samples per pixel. -/
def colorize3 (img : Raster3) : Option (List (List (Nat × Nat × Nat))) :=
  match colorFold3 img (npUnique3 img)
      (List.replicate (img.length * (img.head?.getD []).length * 3) 0) with
  | some cover => some
      ((List.range img.length).map (fun i =>
        (List.range (img.head?.getD []).length).map (fun j =>
          (toU8 (cover.getD (3 * (i * (img.head?.getD []).length + j)) 0),
           toU8 (cover.getD (3 * (i * (img.head?.getD []).length + j) + 1) 0),
           toU8 (cover.getD (3 * (i * (img.head?.getD []).length + j) + 2) 0)))))
  | none => none

/-- C4: whenever the colorizer accepts an input, the output has the input's
height (`shape[0]`) and width (`shape[1]`) and exactly 3 channels per pixel
(the output is allocated as `(shape[0], shape[1], 3)`): for 2D inputs of any
width, and also for every accepted higher-rank input with a trailing class
dimension.  The three channels per pixel are the triple structure of the
output type. -/
theorem colorize_shape_claim :
    (∀ (img : Raster) (out : List (List (Nat × Nat × Nat))), Rect img →
        colorize_landcover img = some out →
        out.length = img.length ∧ ∀ r ∈ out, r.length = imgW img) ∧
    (∀ (img3 : Raster3) (out3 : List (List (Nat × Nat × Nat))),
        colorize3 img3 = some out3 →
        out3.length = img3.length ∧
          ∀ r ∈ out3, r.length = (img3.head?.getD []).length) := by
  constructor
  · intro img out hrect h
    exact colorize_shape_core img out hrect h
  · intro img3 out3 h
    rcases hfold : colorFold3 img3 (npUnique3 img3)
        (List.replicate (img3.length * (img3.head?.getD []).length * 3) 0)
      with _ | cover
    · rw [colorize3, hfold] at h
      exact absurd h (by simp)
    · rw [colorize3, hfold] at h
      have hout : out3 = (List.range img3.length).map (fun i =>
          (List.range (img3.head?.getD []).length).map (fun j =>
            (toU8 (cover.getD (3 * (i * (img3.head?.getD []).length + j)) 0),
             toU8 (cover.getD (3 * (i * (img3.head?.getD []).length + j) + 1) 0),
             toU8 (cover.getD (3 * (i * (img3.head?.getD []).length + j) + 2) 0)))) := by
        cases h; rfl
      constructor
      · rw [hout, List.length_map, List.length_range]
      · intro r hr
        rw [hout] at hr
        obtain ⟨i, _, hmap⟩ := List.mem_map.mp hr
        rw [← hmap, List.length_map, List.length_range]

/-- C4 (witness): a 2D one-pixel raster and an accepted (1, 1, 3) input both
produce a 1 by 1 by 3 output. -/
theorem colorize_shape_claim_witness :
    (([[(0, 0, 255)]] : List (List (Nat × Nat × Nat))).length
        = ([[1]] : Raster).length ∧
      ∀ r ∈ ([[(0, 0, 255)]] : List (List (Nat × Nat × Nat))),
        r.length = imgW [[1]]) ∧
    (([[(0, 0, 255)]] : List (List (Nat × Nat × Nat))).length
        = ([[[1, 1, 1]]] : Raster3).length ∧
      ∀ r ∈ ([[(0, 0, 255)]] : List (List (Nat × Nat × Nat))),
        r.length = (([[[1, 1, 1]]] : Raster3).head?.getD []).length) :=
  ⟨colorize_shape_claim.1 [[1]] [[(0, 0, 255)]] (by decide) (by decide),
   colorize_shape_claim.2 [[[1, 1, 1]]] [[(0, 0, 255)]] (by decide)⟩

/-- A `traverseOpt` whose function succeeds pointwise as `m` returns the map. -/
theorem traverseOpt_map_eq {α β : Type} (f : α → Option β) (m : α → β) :
    ∀ l : List α, (∀ a ∈ l, f a = some (m a)) → traverseOpt f l = some (l.map m) := by
  intro l
  induction l with
  | nil => intro _; rfl
  | cons a as ih =>
    intro hall
    have ha : f a = some (m a) := hall a (List.mem_cons_self a as)
    have has : traverseOpt f as = some (as.map m) :=
      ih (fun x hx => hall x (List.mem_cons_of_mem a hx))
    simp [traverseOpt, ha, has]

/-- Width of a raster after a row-wise map. -/
theorem imgW_map_const (img : Raster) :
    imgW (img.map (fun row => row.map (fun _ => 2))) = imgW img := by
  cases img with
  | nil => rfl
  | cons row rest => simp [imgW]

/-- C6: a decoded response holding only value 9 (deciduous forest) remaps to a
raster holding only value 2, and colorizing that raster yields an image holding
only RGB (0, 127, 0) — 127, not 128, by the truncation rule floor(0.5 * 255). -/
theorem forest_end_to_end (img : Raster) (hrect : Rect img)
    (h9 : ∀ row ∈ img, ∀ p ∈ row, p = 9) :
    ∃ out, nlcd_remap img = some out ∧ (∀ row ∈ out, ∀ p ∈ row, p = 2) ∧
      ∃ co, colorize_landcover out = some co ∧
        ∀ row ∈ co, ∀ q ∈ row, q = (0, 127, 0) := by
  have hremap : nlcd_remap img = some (img.map (fun row => row.map (fun _ => 2))) := by
    apply traverseOpt_map_eq
    intro row hrow
    exact traverseOpt_map_eq remapPixel (fun _ => 2) row
      (fun p hp => by rw [h9 row hrow p hp]; rfl)
  set out := img.map (fun row => row.map (fun _ => 2)) with hdefout
  have hall2 : ∀ row ∈ out, ∀ p ∈ row, p = 2 := by
    intro row hrow p hp
    obtain ⟨srow, _, hsrow⟩ := List.mem_map.mp hrow
    rw [← hsrow] at hp
    obtain ⟨q, _, hq⟩ := List.mem_map.mp hp
    exact hq.symm
  have hrect2 : Rect out := by
    intro row hrow
    obtain ⟨srow, hsrow, hmap⟩ := List.mem_map.mp hrow
    rw [hdefout, imgW_map_const, ← hmap, List.length_map]
    exact hrect srow hsrow
  have hU : ∀ u ∈ npUnique out, (COLOR_MAP u).isSome := by
    intro u hu
    obtain ⟨row, hrow, hur⟩ := List.mem_flatten.mp ((mem_npUnique out u).mp hu)
    rw [hall2 row hrow u hur]
    decide
  obtain ⟨cover2, hc⟩ := colorFold_isSome out (npUnique out) (zerosCover out) hU
  have hco : colorize_landcover out
      = some (cover2.map (fun row => row.map scaleColor)) := by
    rw [colorize_landcover, hc]
  refine ⟨out, hremap, hall2, cover2.map (fun row => row.map scaleColor), hco, ?_⟩
  intro row hrow q hq
  obtain ⟨i, hi⟩ := List.mem_iff_get?.mp hrow
  obtain ⟨j, hj⟩ := List.mem_iff_get?.mp hq
  have hpixq : pixC (cover2.map (fun row => row.map scaleColor)) i j = some q := by
    unfold pixC
    rw [hi]
    simpa using hj
  have hshape := colorize_shape_core out
    (cover2.map (fun row => row.map scaleColor)) hrect2 hco
  have hi2 : i < out.length := by
    rw [← hshape.1]
    exact getq_some_lt _ i row hi
  have hj2 : j < imgW out := by
    rw [← hshape.2 row (List.get?_mem hi)]
    exact getq_some_lt row j q hj
  obtain ⟨orow, horow⟩ := getq_lt out i hi2
  have hjo : j < orow.length := by
    rw [hrect2 orow (List.get?_mem horow)]
    exact hj2
  obtain ⟨p, hpj⟩ := getq_lt orow j hjo
  have hp2 : p = 2 := hall2 orow (List.get?_mem horow) p (List.get?_mem hpj)
  have hpix : pix out i j = some 2 := by
    unfold pix
    rw [horow]
    simpa [hp2] using hpj
  obtain ⟨c, hcm, hpxc⟩ := colorize_pix_core out
    (cover2.map (fun row => row.map scaleColor)) i j 2 hrect2 hco hpix
  have hc2 : c = (0, 4, 0) := by
    have : COLOR_MAP 2 = some (0, 4, 0) := rfl
    rw [this] at hcm
    exact (Option.some_injective _ hcm).symm
  rw [hpxc] at hpixq
  have : q = scaleColor c := Option.some_injective _ hpixq.symm
  rw [this, hc2]
  rfl

/-- C6 (witness): a 2 by 2 all-9 raster. -/
theorem forest_end_to_end_witness :
    ∃ out, nlcd_remap [[9, 9], [9, 9]] = some out ∧
      (∀ row ∈ out, ∀ p ∈ row, p = 2) ∧
      ∃ co, colorize_landcover out = some co ∧
        ∀ row ∈ co, ∀ q ∈ row, q = (0, 127, 0) :=
  forest_end_to_end [[9, 9], [9, 9]] (by decide) (by decide)

/-- The local variables of the body of `colorize_landcover`: the input array
`img` and the output color plane `cover_colors`.  The only assignment targets
in the source body are `cover_colors`, the masked positions
`cover_colors[mask]`, and the fresh `land_color`; this state makes the write
targets explicit so that non-mutation of the input is a provable statement. -/
structure ColorizeState where
  img : Raster
  cover_colors : List (List (Nat × Nat × Nat))
  deriving DecidableEq

/-- The distinct-value loop with the explicit variable state: each iteration
replaces `cover_colors` by its masked update and assigns nothing else. -/
def colorFoldS : List Nat → ColorizeState → Option ColorizeState
  | [], s => some s
  | cov :: rest, s =>
    match COLOR_MAP cov with
    | some c => colorFoldS rest ⟨s.img, writeMask s.img s.cover_colors cov c⟩
    | none => none

/-- `colorize_landcover` with the explicit variable state: allocate the zero
plane, run the loop, and compute `land_color` from the final `cover_colors`.
The returned state holds the final values of the body's variables. -/
def colorize_stateful (img0 : Raster) :
    Option (ColorizeState × List (List (Nat × Nat × Nat))) :=
  match colorFoldS (npUnique img0) ⟨img0, zerosCover img0⟩ with
  | some s => some (s, s.cover_colors.map (fun row => row.map scaleColor))
  | none => none

/-- The stateful loop is the pure loop with the input array carried unchanged. -/
theorem colorFoldS_eq (im : Raster) :
    ∀ (U : List Nat) (cover : List (List (Nat × Nat × Nat))),
      colorFoldS U ⟨im, cover⟩
        = (colorFold im U cover).map (fun c2 => (⟨im, c2⟩ : ColorizeState)) := by
  intro U
  induction U with
  | nil => intro cover; rfl
  | cons cov rest ih =>
    intro cover
    rcases hcm : COLOR_MAP cov with _ | c
    · simp [colorFoldS, colorFold, hcm]
    · simp only [colorFoldS, colorFold, hcm]
      exact ih (writeMask im cover cov c)

/-- C10: `colorize_landcover` never writes to its input: when the body
finishes, the `img` variable still holds the original raster (the only mutated
array is the freshly allocated `cover_colors`), and the returned image is the
colorized output of that unchanged input. -/
theorem colorize_input_preserved (img : Raster) (s : ColorizeState)
    (out : List (List (Nat × Nat × Nat)))
    (h : colorize_stateful img = some (s, out)) :
    s.img = img ∧ colorize_landcover img = some out := by
  unfold colorize_stateful at h
  rw [colorFoldS_eq img (npUnique img) (zerosCover img)] at h
  rcases hfold : colorFold img (npUnique img) (zerosCover img) with _ | cover
  · rw [hfold] at h
    exact absurd h (by simp)
  · rw [hfold] at h
    simp only [Option.map_some'] at h
    cases h
    exact ⟨rfl, by rw [colorize_landcover, hfold]⟩

/-- C10 (witness): colorizing a one-pixel raster of value 1 leaves the input
raster in the final state untouched. -/
theorem colorize_input_preserved_witness :
    (⟨[[1]], [[(0, 0, 8)]]⟩ : ColorizeState).img = [[1]] ∧
    colorize_landcover [[1]] = some [[(0, 0, 255)]] :=
  colorize_input_preserved [[1]] ⟨[[1]], [[(0, 0, 8)]]⟩ [[(0, 0, 255)]] (by decide)
